import Mathlib

set_option autoImplicit false

namespace ContentJS

/-- JavaScript object property lookup on a string-keyed map, modelled as an
association list: the first pair with the given key wins. -/
def jsoGet {α : Type} : List (String × α) → String → Option α
  | [], _ => none
  | (k, v) :: rest, key => if k = key then some v else jsoGet rest key

/-- JavaScript object property assignment: replace the first pair with the
given key, or append a new pair when the key is absent. -/
def jsoSet {α : Type} : List (String × α) → String → α → List (String × α)
  | [], key, v => [(key, v)]
  | (k, v0) :: rest, key, v =>
      if k = key then (key, v) :: rest else (k, v0) :: jsoSet rest key v

/-- JavaScript delete of an object property: drop every pair with the key. -/
def jsoDel {α : Type} : List (String × α) → String → List (String × α)
  | [], _ => []
  | (k, v) :: rest, key => if k = key then jsoDel rest key else (k, v) :: jsoDel rest key

/-- JavaScript assignment to a numeric array index. The indices realized in
this development are either a valid index or exactly the array length (a JS
index beyond the length would create holes, which never happens here because
the database index tables only store valid indices or the current length). -/
def listPut {α : Type} (l : List α) (i : Nat) (x : α) : List α :=
  if i < l.length then l.set i x else l ++ [x]

/-! ## Node path model (POSIX).
The repository runs Node's path module on absolute POSIX paths.  A path is
normalized into its list of segments; joining and relativizing work on
segments.  All paths fed to these functions by the code under study are
absolute or plain file names, so resolve-against-cwd is not modelled. -/

/-- Split a list of characters at every occurrence of a separator character;
splitting the empty list yields a single empty group, as in JavaScript. -/
def splitOnChar (sep : Char) : List Char → List (List Char)
  | [] => [[]]
  | c :: rest =>
      if c = sep then [] :: splitOnChar sep rest
      else
        match splitOnChar sep rest with
        | g :: gs => (c :: g) :: gs
        | [] => [[c]]

/-- Split a path string on the POSIX separator. -/
def splitSlash (s : String) : List String :=
  (splitOnChar '/' s.data).map (fun g => (⟨g⟩ : String))

/-- Whether a path string begins with the POSIX separator. -/
def startsWithSep (s : String) : Bool :=
  match s.data with
  | '/' :: _ => true
  | _ => false

/-- Normalize the segments of an absolute path: empty and dot segments vanish
and a dot-dot segment removes the previous segment (at the root it is
dropped, as Node does for absolute paths). -/
def absSegs (s : String) : List String :=
  (splitSlash s).foldl
    (fun acc seg =>
      if seg = "" ∨ seg = "." then acc
      else if seg = ".." then acc.dropLast
      else acc ++ [seg]) []

/-- Normalize the segments of a relative path: as in absSegs, except that
leading dot-dot segments are preserved. -/
def relSegs (s : String) : List String :=
  (splitSlash s).foldl
    (fun acc seg =>
      if seg = "" ∨ seg = "." then acc
      else if seg = ".." then
        match acc.getLast? with
        | some l => if l = ".." then acc ++ [".."] else acc.dropLast
        | none => [".."]
      else acc ++ [seg]) []

/-- Node Path.join for two parts: concatenate with a separator and
normalize, keeping the result absolute when the first part is absolute. -/
def pathJoin (a b : String) : String :=
  let joined := if a = "" then b else if b = "" then a else a ++ "/" ++ b
  if startsWithSep joined then "/" ++ String.intercalate "/" (absSegs joined)
  else String.intercalate "/" (relSegs joined)

/-- Drop the longest common prefix of two segment lists. -/
def dropCommon : List String → List String → List String × List String
  | a :: as, b :: bs => if a = b then dropCommon as bs else (a :: as, b :: bs)
  | as, bs => (as, bs)

/-- Node Path.relative restricted to absolute inputs: after normalizing both
sides, walk up out of the unshared part of the origin and down into the
unshared part of the destination. -/
def pathRelative (fromP toP : String) : String :=
  let p := dropCommon (absSegs fromP) (absSegs toP)
  String.intercalate "/" (p.1.map (fun _ => "..") ++ p.2)

/-- Node Path.basename (POSIX): the last portion of the path, with trailing
separators stripped first. -/
def jsBasename (p : String) : String :=
  ⟨((p.data.reverse.dropWhile (· = '/')).takeWhile (· ≠ '/')).reverse⟩

/-! ## JavaScript string primitives used by parseResourcePath. -/

/-- Position of the first occurrence of a character, if any. -/
def jsIndexOfAux (c : Char) : List Char → Option Nat
  | [] => none
  | x :: xs => if x = c then some 0 else (jsIndexOfAux c xs).map (· + 1)

/-- JavaScript String.indexOf for a single character: first index or -1. -/
def jsIndexOf (c : Char) (l : List Char) : Int :=
  match jsIndexOfAux c l with
  | none => -1
  | some i => i

/-- Position of the last occurrence of a character, if any. -/
def jsLastIndexOfAux (c : Char) : List Char → Option Nat
  | [] => none
  | x :: xs =>
      match jsLastIndexOfAux c xs with
      | some i => some (i + 1)
      | none => if x = c then some 0 else none

/-- JavaScript String.lastIndexOf for a single character: last index or -1. -/
def jsLastIndexOf (c : Char) (l : List Char) : Int :=
  match jsLastIndexOfAux c l with
  | none => -1
  | some i => i

/-- Clamp a JavaScript substring index into the range zero to the length:
negative indices become zero and indices past the end become the length. -/
def clampIdx (len : Nat) (i : Int) : Nat := min i.toNat len

/-- JavaScript String.substring: both indices are clamped and swapped when
given out of order, then the slice between them is returned. -/
def jsSubstring (l : List Char) (a b : Int) : List Char :=
  let x := clampIdx l.length a
  let y := clampIdx l.length b
  (l.take (max x y)).drop (min x y)

/-- JavaScript String.split on a dot: splitting the empty string yields a
single empty group. -/
def splitOnDot : List Char → List (List Char)
  | [] => [[]]
  | c :: rest =>
      if c = '.' then [] :: splitOnDot rest
      else
        match splitOnDot rest with
        | g :: gs => (c :: g) :: gs
        | [] => [[c]]

/-- Resource metadata extracted from a file name (database.js). -/
structure Resource where
  resourceName : String
  resourceType : String
  properties : List String
deriving DecidableEq, Repr

/-- parseResourcePath from database.js: split the basename of the path at its
first and last dot positions. -/
def parseResourcePath (path : String) : Resource :=
  let filename := jsBasename path
  let cs := filename.data
  let lp := jsLastIndexOf '.' cs
  let fp := jsIndexOf '.' cs
  let propsstr := if fp = lp then ([] : List Char) else jsSubstring cs (fp + 1) lp
  { resourceName := ⟨jsSubstring cs 0 fp⟩
    resourceType := ⟨jsSubstring cs (lp + 1) cs.length⟩
    properties := (splitOnChar '.' propsstr).map (fun g => (⟨g⟩ : String)) }

/-! ## JavaScript 32-bit integer arithmetic (for the target-path hash). -/

/-- ToInt32: wrap an integer into the signed 32-bit range. -/
def toInt32 (n : Int) : Int := (n + 2 ^ 31) % 2 ^ 32 - 2 ^ 31

/-- JavaScript left shift by seven: both the operand and the result are
wrapped to signed 32 bits. -/
def jsShl7 (h : Int) : Int := toInt32 (toInt32 h * 128)

/-- JavaScript signed (sign-propagating) right shift by twenty-five: the
operand is wrapped to signed 32 bits and then floor-divided. -/
def jsSar25 (h : Int) : Int := Int.fdiv (toInt32 h) (2 ^ 25)

/-- JavaScript unsigned right shift by twenty-five: the operand is wrapped to
unsigned 32 bits and then divided. -/
def jsShr25 (h : Int) : Int := (h % 2 ^ 32) / 2 ^ 25

/-- The UTF-16 code units of a string, as charCodeAt enumerates them:
scalar values above the basic plane become a surrogate pair. -/
def utf16CodeUnits (s : String) : List Nat :=
  s.data.flatMap (fun c =>
    let v := c.toNat
    if v < 0x10000 then [v]
    else [0xD800 + (v - 0x10000) / 0x400, 0xDC00 + (v - 0x10000) % 0x400])

/-- The hash loop of Target.prototype.targetPathFor, iterating charCodeAt
results: hash = (hash << 7) + (hash >> 25) + ch.  The sum itself is an exact
double and is only wrapped when the next iteration shifts it. -/
def stbHashLoop : Int → List Nat → Int
  | h, [] => h
  | h, ch :: rest => stbHashLoop (jsShl7 h + jsSar25 h + ch) rest

/-- JavaScript Number.prototype.toString(16) on an integer-valued number:
lowercase hex digits, with a leading minus sign for negative values. -/
def jsNumToHex (n : Int) : String :=
  if n < 0 then ⟨'-' :: Nat.toDigits 16 n.natAbs⟩ else ⟨Nat.toDigits 16 n.toNat⟩

/-! ## Filesystem model.
The filesystem is a read-only map from a path to stat data; a missing path
makes statSync throw.  Stat data carries what the code reads: the
modification time in milliseconds, the size, and whether it is a file. -/

/-- The fs.Stats fields read by the code under study. -/
structure Stat where
  mtimeMs : Int
  size : Int
  file : Bool
deriving DecidableEq, Repr

/-- A snapshot of the filesystem as seen through statSync. -/
def Fs : Type := String → Option Stat

/-- FSUtil.isFile from fsutility.js: statSync in a try block; any error means
the path does not name an existing file. -/
def isFile (fs : Fs) (path : String) : Bool :=
  match fs path with
  | some st => st.file
  | none => false

/-! ## Content databases (database.js). -/

/-- A timestamp as serialized into a database file (an ISO-8601 string with
millisecond precision, modelled by its epoch-millisecond value). -/
structure IsoDate where
  ms : Int
deriving DecidableEq, Repr

/-- Models the JavaScript expression new Date(isoString): millisecond
precision is preserved on both write and read. -/
def dateOfIso (d : IsoDate) : Int := d.ms

/-- An entry of the in-memory source database. -/
structure SourceEntry where
  relativePath : String
  resourceName : String
  resourceType : String
  platform : String
  properties : List String
  references : List String
  dependencies : List String
  writeTime : Int
  fileSize : Int
deriving DecidableEq, Repr

/-- A source entry as it sits in the JSON file: writeTime is serialized. -/
structure RawSourceEntry where
  relativePath : String
  resourceName : String
  resourceType : String
  platform : String
  properties : List String
  references : List String
  dependencies : List String
  writeTime : IsoDate
  fileSize : Int
deriving DecidableEq, Repr

/-- Rehydrate one loaded entry: new Date(en.writeTime). -/
def rehydrateSourceEntry (r : RawSourceEntry) : SourceEntry :=
  { relativePath := r.relativePath
    resourceName := r.resourceName
    resourceType := r.resourceType
    platform := r.platform
    properties := r.properties
    references := r.references
    dependencies := r.dependencies
    writeTime := dateOfIso r.writeTime
    fileSize := r.fileSize }

/-- An entry of the in-memory target database. -/
structure TargetEntry where
  relativePath : String
  resourceName : String
  resourceType : String
  sourcePath : String
  platform : String
  compilerName : String
  properties : List String
  outputs : List String
deriving DecidableEq, Repr

/-- The index table attached to a database: relativePath to array index. -/
abbrev Table : Type := List (String × Nat)

/-- The indexing loop shared by both load functions: for each entry in order,
entryTable of its relativePath is set to its position. -/
def buildTable {α : Type} (rp : α → String) : Nat → List α → Table → Table
  | _, [], t => t
  | i, e :: rest, t => buildTable rp (i + 1) rest (jsoSet t (rp e) i)

/-- The in-memory source database. -/
structure SourceDatabase where
  bundleName : String
  entries : List SourceEntry
  entryTable : Table
  dirty : Bool
deriving DecidableEq, Repr

/-- The SourceDatabase constructor function: everything empty, not dirty. -/
def SourceDatabase.new : SourceDatabase :=
  { bundleName := "", entries := [], entryTable := [], dirty := false }

/-- The parsed content of a well-formed source database file. -/
structure SDFileData where
  bundleName : String
  entries : List RawSourceEntry
deriving DecidableEq, Repr

/-- A source database file as found on disk: reading it can fail, parsing it
can fail, or it yields parsed data. -/
inductive SDFile where
  | unreadable
  | malformed
  | wellFormed (data : SDFileData)
deriving DecidableEq, Repr

/-- Error kinds surfaced by database loading. -/
inductive DbError where
  | ioError
  | formatError
deriving DecidableEq, Repr

/-- SourceDatabase.prototype.load on parsed file data: replace every field,
rehydrate each writeTime and rebuild the entry table in one pass over the
entries (the rehydration does not touch relativePath, so it is applied first
here), and clear dirty. -/
def SourceDatabase.loadData (data : SDFileData) : SourceDatabase :=
  let es := data.entries.map rehydrateSourceEntry
  { bundleName := data.bundleName
    entries := es
    entryTable := buildTable (fun e => e.relativePath) 0 es []
    dirty := false }

/-- SourceDatabase.prototype.load: readFileSync and JSON.parse are not
guarded, so a read failure or malformed JSON escapes as an error. -/
def SourceDatabase.load (f : SDFile) : Except DbError SourceDatabase :=
  match f with
  | SDFile.unreadable => Except.error DbError.ioError
  | SDFile.malformed => Except.error DbError.formatError
  | SDFile.wellFormed data => Except.ok (SourceDatabase.loadData data)

/-- Serialize one entry for JSON.stringify: a Date becomes its ISO form. -/
def serializeSourceEntry (e : SourceEntry) : RawSourceEntry :=
  { relativePath := e.relativePath
    resourceName := e.resourceName
    resourceType := e.resourceType
    platform := e.platform
    properties := e.properties
    references := e.references
    dependencies := e.dependencies
    writeTime := { ms := e.writeTime }
    fileSize := e.fileSize }

/-- SourceDatabase.prototype.save: write bundleName and entries, then clear
the dirty flag.  The written file data is returned beside the database. -/
def SourceDatabase.save (db : SourceDatabase) : SDFileData × SourceDatabase :=
  ({ bundleName := db.bundleName, entries := db.entries.map serializeSourceEntry },
   { db with dirty := false })

/-- SourceDatabase.prototype.query: look up the path relative to the root in
the entry table; an unknown key gives undefined. -/
def SourceDatabase.query (db : SourceDatabase) (rootPath sourcePath : String) :
    Option SourceEntry :=
  match jsoGet db.entryTable (pathRelative rootPath sourcePath) with
  | some index => db.entries.get? index
  | none => none

/-- SourceDatabase.prototype.create: stat the file (the exception from a
missing file propagates to the caller), build a fresh entry from the parsed
resource path and the stat data, overwrite the entry at an existing index for
the same relative path or append at the end, update the table and set dirty. -/
def SourceDatabase.create (fs : Fs) (db : SourceDatabase) (rootPath sourcePath : String) :
    Option (SourceEntry × SourceDatabase) :=
  match fs sourcePath with
  | none => none
  | some stats =>
      let parts := parseResourcePath sourcePath
      let entry : SourceEntry :=
        { relativePath := pathRelative rootPath sourcePath
          resourceName := parts.resourceName
          resourceType := parts.resourceType
          platform := ""
          properties := parts.properties
          references := []
          dependencies := []
          writeTime := stats.mtimeMs
          fileSize := stats.size }
      let index :=
        match jsoGet db.entryTable entry.relativePath with
        | some existing => existing
        | none => db.entries.length
      some (entry,
        { db with
            entries := listPut db.entries index entry
            entryTable := jsoSet db.entryTable entry.relativePath index
            dirty := true })

/-- SourceDatabase.prototype.remove: when the key is known, the table key is
deleted and dirty is set, but the entries array is left untouched because the
source calls the non-mutating slice instead of splice. -/
def SourceDatabase.remove (db : SourceDatabase) (rootPath sourcePath : String) :
    SourceDatabase :=
  match jsoGet db.entryTable (pathRelative rootPath sourcePath) with
  | some _ =>
      { db with
          entryTable := jsoDel db.entryTable (pathRelative rootPath sourcePath)
          dirty := true }
  | none => db

/-- loadSourceDatabase: a fresh database stays empty and is marked dirty when
the file does not exist; otherwise load runs with exceptions not caught. -/
def loadSourceDatabase (fs : String → Option SDFile) (path : String) :
    Except DbError SourceDatabase :=
  match fs path with
  | some f => SourceDatabase.load f
  | none => Except.ok { SourceDatabase.new with dirty := true }

/-- The in-memory target database. -/
structure TargetDatabase where
  bundleName : String
  platform : String
  entries : List TargetEntry
  entryTable : Table
  dirty : Bool
deriving DecidableEq, Repr

/-- The TargetDatabase constructor function: everything empty, not dirty. -/
def TargetDatabase.new : TargetDatabase :=
  { bundleName := "", platform := "", entries := [], entryTable := [], dirty := false }

/-- The parsed content of a well-formed target database file. -/
structure TDFileData where
  bundleName : String
  platform : String
  entries : List TargetEntry
deriving DecidableEq, Repr

/-- A target database file as found on disk. -/
inductive TDFile where
  | unreadable
  | malformed
  | wellFormed (data : TDFileData)
deriving DecidableEq, Repr

/-- TargetDatabase.prototype.load on parsed file data. -/
def TargetDatabase.loadData (data : TDFileData) : TargetDatabase :=
  { bundleName := data.bundleName
    platform := data.platform
    entries := data.entries
    entryTable := buildTable (fun e => e.relativePath) 0 data.entries []
    dirty := false }

/-- TargetDatabase.prototype.load: read and parse failures escape. -/
def TargetDatabase.load (f : TDFile) : Except DbError TargetDatabase :=
  match f with
  | TDFile.unreadable => Except.error DbError.ioError
  | TDFile.malformed => Except.error DbError.formatError
  | TDFile.wellFormed data => Except.ok (TargetDatabase.loadData data)

/-- TargetDatabase.prototype.save. -/
def TargetDatabase.save (db : TargetDatabase) : TDFileData × TargetDatabase :=
  ({ bundleName := db.bundleName, platform := db.platform, entries := db.entries },
   { db with dirty := false })

/-- TargetDatabase.prototype.query. -/
def TargetDatabase.query (db : TargetDatabase) (rootPath targetPath : String) :
    Option TargetEntry :=
  match jsoGet db.entryTable (pathRelative rootPath targetPath) with
  | some index => db.entries.get? index
  | none => none

/-- TargetDatabase.prototype.create: like the source version, but the entry
records the source path relative to the same root, the database platform, the
compiler name and an empty outputs list.  No stat call is made. -/
def TargetDatabase.create (db : TargetDatabase)
    (rootPath sourcePath targetPath compilerName : String) :
    TargetEntry × TargetDatabase :=
  let parts := parseResourcePath sourcePath
  let entry : TargetEntry :=
    { relativePath := pathRelative rootPath targetPath
      resourceName := parts.resourceName
      resourceType := parts.resourceType
      sourcePath := pathRelative rootPath sourcePath
      platform := db.platform
      compilerName := compilerName
      properties := parts.properties
      outputs := [] }
  let index :=
    match jsoGet db.entryTable entry.relativePath with
    | some existing => existing
    | none => db.entries.length
  (entry,
    { db with
        entries := listPut db.entries index entry
        entryTable := jsoSet db.entryTable entry.relativePath index
        dirty := true })

/-- TargetDatabase.prototype.remove: same non-mutating slice as the source
version, so only the table key disappears. -/
def TargetDatabase.remove (db : TargetDatabase) (rootPath targetPath : String) :
    TargetDatabase :=
  match jsoGet db.entryTable (pathRelative rootPath targetPath) with
  | some _ =>
      { db with
          entryTable := jsoDel db.entryTable (pathRelative rootPath targetPath)
          dirty := true }
  | none => db

/-- loadTargetDatabase: missing file yields an empty dirty database. -/
def loadTargetDatabase (fs : String → Option TDFile) (path : String) :
    Except DbError TargetDatabase :=
  match fs path with
  | some f => TargetDatabase.load f
  | none => Except.ok { TargetDatabase.new with dirty := true }

/-! ## Projects, packages and targets (project.js). -/

/-- A compiler definition from the pipeline file; the engine only needs the
executable to spawn plus optional arguments. -/
structure CompilerDef where
  executable : String
  args : List String
deriving DecidableEq, Repr

/-- The pipeline definition: a JSON object mapping resource type strings to
compiler definitions. -/
abbrev Pipeline : Type := List (String × CompilerDef)

/-- A pipeline definition file as found on disk. -/
inductive PipeFile where
  | malformed
  | wellFormed (data : Pipeline)
deriving DecidableEq, Repr

/-- loadPipelineDefinition from project.js: readFileSync plus JSON.parse
inside a try block whose catch returns an empty object, so a missing file, an
unreadable file and malformed JSON all yield the empty mapping. -/
def loadPipelineDefinition (fs : String → Option PipeFile) (path : String) : Pipeline :=
  match fs path with
  | none => []
  | some PipeFile.malformed => []
  | some (PipeFile.wellFormed data) => data

/-- The reserved platform name used when none is given. -/
def GENERIC_PLATFORM : String := "generic"

/-- The directory extension used for target packages. -/
def TARGET_EXTENSION : String := ".target"

/-- The file extension used for target databases. -/
def TARGET_DB_EXTENSION : String := ".target.json"

/-- The directory extension used for source packages. -/
def SOURCE_EXTENSION : String := ".source"

/-- The file extension used for source databases. -/
def SOURCE_DB_EXTENSION : String := ".source.json"

/-- The output location of one package on one platform. -/
structure Target where
  database : TargetDatabase
  rootPath : String
  targetPath : String
  packageName : String
  platformName : String
  databasePath : String
deriving DecidableEq, Repr

/-- The argument object taken by Target.create. -/
structure TargetArgs where
  packageName : String
  packageRoot : String
  databaseRoot : String
  platformName : String
deriving DecidableEq, Repr

/-- Target.create: an empty platform name becomes the generic platform, the
directory and database names are derived from package and platform names, and
the target database is loaded (its load failure escapes).  The makeTree call
only touches the real filesystem and is not modelled in this read-only
filesystem snapshot. -/
def Target.create (fs : String → Option TDFile) (args : TargetArgs) :
    Except DbError Target :=
  let platformName :=
    if args.platformName.length = 0 then GENERIC_PLATFORM else args.platformName
  let targetName := args.packageName ++ "." ++ platformName ++ TARGET_EXTENSION
  let targetDbName := args.packageName ++ "." ++ platformName ++ TARGET_DB_EXTENSION
  let targetPath := pathJoin args.packageRoot targetName
  let targetDbPath := pathJoin args.databaseRoot targetDbName
  (loadTargetDatabase fs targetDbPath).map (fun db0 =>
    { database := { db0 with bundleName := args.packageName, platform := platformName }
      rootPath := args.packageRoot
      targetPath := targetPath
      packageName := args.packageName
      platformName := platformName
      databasePath := targetDbPath })

/-- Target.prototype.targetPathFor: hash the UTF-16 code units of the
resource name with the stb-style loop and join the toString(16) rendering of
the result under the target path. -/
def Target.targetPathFor (t : Target) (resourceName : String) : String :=
  pathJoin t.targetPath (jsNumToHex (stbHashLoop 0 (utf16CodeUnits resourceName)))

/-- A logical group of content: sources, a source database, and targets. -/
structure Package where
  database : SourceDatabase
  databasePath : String
  databaseRoot : String
  packageRoot : String
  sourcePath : String
  projectName : String
  packageName : String
  targets : List (String × Target)
deriving DecidableEq, Repr

/-- Package.prototype.targetPlatform: map the empty platform name to generic,
return the cached Target when one exists, and otherwise create it, cache it
and return it.  Errors from loading the new target database escape. -/
def Package.targetPlatform (fs : String → Option TDFile) (pkg : Package)
    (platformName : String) : Except DbError (Target × Package) :=
  let name := if platformName.length = 0 then GENERIC_PLATFORM else platformName
  match jsoGet pkg.targets name with
  | some target => Except.ok (target, pkg)
  | none =>
      (Target.create fs
        { packageName := pkg.packageName
          packageRoot := pkg.packageRoot
          databaseRoot := pkg.databaseRoot
          platformName := name }).map
        (fun target => (target, { pkg with targets := jsoSet pkg.targets name target }))

/-! ## Builder change detection (project.js). -/

/-- Builder.prototype.sourceFileModified: compare the recorded write time and
size against the current stat, millisecond by millisecond. -/
def sourceFileModified (entry : SourceEntry) (stat : Stat) : Bool :=
  if stat.mtimeMs ≠ entry.writeTime then true
  else if stat.size ≠ entry.fileSize then true
  else false

/-- The dependency loop of Builder.prototype.dependenciesModified.  A
dependency with no database entry returns true; when an entry r is found the
source invokes r.dependenciesModified, a property that plain entry objects do
not have, so the call of undefined throws a TypeError that the enclosing try
block turns into true. -/
def depLoop (db : SourceDatabase) (rootPath : String) :
    List String → Except Unit Bool
  | [] => Except.ok false
  | ref :: _ =>
      match SourceDatabase.query db rootPath ref with
      | none => Except.ok true
      | some _ => Except.error ()

/-- The try block of Builder.prototype.dependenciesModified: stat the file
itself (a missing file throws), compare it, then run the dependency loop. -/
def dependenciesModifiedBody (fs : Fs) (bundle : Package) (entry : SourceEntry) :
    Except Unit Bool :=
  match fs (pathJoin bundle.sourcePath entry.relativePath) with
  | none => Except.error ()
  | some stat =>
      if sourceFileModified entry stat then Except.ok true
      else depLoop bundle.database bundle.sourcePath entry.dependencies

/-- Builder.prototype.dependenciesModified: any exception inside the try
block is treated as modified. -/
def dependenciesModified (fs : Fs) (bundle : Package) (entry : SourceEntry) : Bool :=
  match dependenciesModifiedBody fs bundle entry with
  | Except.ok b => b
  | Except.error _ => true

/-- The output loop of Builder.prototype.buildOutputsExist: true until some
recorded output path is not a file on disk. -/
def allOutputsExist (fs : Fs) : List String → Bool
  | [] => true
  | o :: rest => if isFile fs o then allOutputsExist fs rest else false

/-- Builder.prototype.buildOutputsExist: query the target database by the
target path; with no entry there is nothing to verify, otherwise every
recorded output must exist as a file. -/
def buildOutputsExist (fs : Fs) (target : Target) (targetPath : String) : Bool :=
  match TargetDatabase.query target.database target.targetPath targetPath with
  | some entry => allOutputsExist fs entry.outputs
  | none => true

/-- Builder.prototype.requiresRebuild: modified dependencies or missing build
outputs force a rebuild. -/
def requiresRebuild (fs : Fs) (bundle : Package) (target : Target)
    (targetPath : String) (entry : SourceEntry) : Bool :=
  if dependenciesModified fs bundle entry then true
  else if buildOutputsExist fs target targetPath = false then true
  else false

/-! ## Statements of the specification, written from its words.
These definitions follow the sentences of the specification (not the source)
so that the source-derived definitions above can be compared against them. -/

/-- The hash exactly as the claim words it: h = (h << 7) + (h >>> 25) + ch
per code unit, starting from 0, all arithmetic on signed 32-bit integers with
wraparound (so the unsigned right shift of the claim, and the sum wrapped). -/
def specHashUnsigned (units : List Nat) : Int :=
  units.foldl (fun h ch => toInt32 (jsShl7 h + jsShr25 h + ch)) 0

/-- The hash as the amended claim words it: h = (h << 7) + (h >> 25) + ch per
code unit, starting from 0, where << wraps to signed 32 bits and >> is the
sign-propagating shift of the signed 32-bit value; the final sum is rendered
by toString(16) without a further wrap. -/
def specHashSigned (units : List Nat) : Int :=
  units.foldl (fun h ch => jsShl7 h + jsSar25 h + ch) 0

/-- Build the filename form name.prop1.prop2...ext of the claim: the given
parts joined by single dots. -/
def joinDots : List (List Char) → List Char
  | [] => []
  | [p] => p
  | p :: ps => p ++ '.' :: joinDots ps

/-- The indexing invariant of a database: every entry is found in the table
under its relative path with its own index, and every table pair points back
at an entry carrying its key. -/
def tableIndexes {α : Type} (rp : α → String) (entries : List α) (table : Table) : Prop :=
  (∀ i, i < entries.length →
    (entries.get? i).map (fun e => jsoGet table (rp e)) = some (some i))
  ∧ (∀ p ∈ table, (entries.get? p.2).map rp = some p.1)

/-- The indexing invariant for a source database. -/
def SInv (db : SourceDatabase) : Prop :=
  tableIndexes (fun e => e.relativePath) db.entries db.entryTable

/-- The indexing invariant for a target database. -/
def TInv (db : TargetDatabase) : Prop :=
  tableIndexes (fun e => e.relativePath) db.entries db.entryTable

instance tableIndexesDec {α : Type} (rp : α → String) (entries : List α) (table : Table) :
    Decidable (tableIndexes rp entries table) := by
  unfold tableIndexes; infer_instance

instance sInvDec (db : SourceDatabase) : Decidable (SInv db) := by
  unfold SInv; infer_instance

instance tInvDec (db : TargetDatabase) : Decidable (TInv db) := by
  unfold TInv; infer_instance

/-! ## Concrete example data used by witnesses and counterexamples. -/

/-- A fresh target writing under /out. -/
def tgtOut : Target :=
  { database := TargetDatabase.new
    rootPath := "/packages"
    targetPath := "/out"
    packageName := "pkg"
    platformName := GENERIC_PLATFORM
    databasePath := "/db/pkg.generic.target.json" }

/-- A source entry for a.txt whose recorded metadata is current. -/
def entMain : SourceEntry :=
  { relativePath := "a.txt", resourceName := "a", resourceType := "txt"
    platform := "", properties := [""], references := []
    dependencies := ["/src/d.txt"], writeTime := 100, fileSize := 5 }

/-- A source entry for the dependency d.txt, also current on disk. -/
def entDep : SourceEntry :=
  { relativePath := "d.txt", resourceName := "d", resourceType := "txt"
    platform := "", properties := [""], references := []
    dependencies := [], writeTime := 200, fileSize := 7 }

/-- A source database holding both entries, consistently indexed. -/
def dbSrc : SourceDatabase :=
  { bundleName := "pkg"
    entries := [entMain, entDep]
    entryTable := [("a.txt", 0), ("d.txt", 1)]
    dirty := false }

/-- A package rooted at /src using that database. -/
def pkgSrc : Package :=
  { database := dbSrc
    databasePath := "/db/pkg.source.json"
    databaseRoot := "/db"
    packageRoot := "/packages"
    sourcePath := "/src"
    projectName := "proj"
    packageName := "pkg"
    targets := [] }

/-- A filesystem where both source files are exactly as recorded. -/
def fsSrc : Fs := fun p =>
  if p = "/src/a.txt" then some { mtimeMs := 100, size := 5, file := true }
  else if p = "/src/d.txt" then some { mtimeMs := 200, size := 7, file := true }
  else none

/-- A target database with one entry, consistently indexed. -/
def dbTgt : TargetDatabase :=
  { bundleName := "pkg"
    platform := GENERIC_PLATFORM
    entries := [{ relativePath := "1a2b", resourceName := "a", resourceType := "txt"
                  sourcePath := "a.txt", platform := GENERIC_PLATFORM
                  compilerName := "copy", properties := [""], outputs := [] }]
    entryTable := [("1a2b", 0)]
    dirty := false }

/-- A pipeline file store whose pipeline.json exists but holds broken JSON. -/
def fsPipeBroken : String → Option PipeFile := fun p =>
  if p = "/proj/pipeline.json" then some PipeFile.malformed else none

/-- A well-formed source database file with one entry. -/
def sdGood : SDFileData :=
  { bundleName := "pkg"
    entries := [{ relativePath := "a.txt", resourceName := "a"
                  resourceType := "txt", platform := "", properties := [""]
                  references := [], dependencies := []
                  writeTime := { ms := 100 }, fileSize := 5 }] }

/-- A database file store exercising all load cases: a well-formed source
file, a malformed one, an unreadable one, and nothing anywhere else. -/
def fsDbFiles : String → Option SDFile := fun p =>
  if p = "/db/good.source.json" then some (SDFile.wellFormed sdGood)
  else if p = "/db/bad.source.json" then some SDFile.malformed
  else if p = "/db/locked.source.json" then some SDFile.unreadable
  else none

/-- A well-formed target database file with one entry. -/
def tdGood : TDFileData :=
  { bundleName := "pkg", platform := "ios"
    entries := [{ relativePath := "1a2b", resourceName := "a"
                  resourceType := "txt", sourcePath := "a.txt"
                  platform := "ios", compilerName := "copy"
                  properties := [""], outputs := ["/out/1a2b.txt"] }] }

/-- A target database file store with the same cases. -/
def fsTdbFiles : String → Option TDFile := fun p =>
  if p = "/db/good.target.json" then some (TDFile.wellFormed tdGood)
  else if p = "/db/bad.target.json" then some TDFile.malformed
  else if p = "/db/locked.target.json" then some TDFile.unreadable
  else none

/-- A target file store with no database files at all. -/
def fsNoTdb : String → Option TDFile := fun _ => none

/-- A package with no cached targets yet, for exercising targetPlatform. -/
def pkgFresh : Package :=
  { database := SourceDatabase.new
    databasePath := "/proj/database/pkg.source.json"
    databaseRoot := "/proj/database"
    packageRoot := "/proj/packages"
    sourcePath := "/proj/packages/pkg.source"
    projectName := "proj"
    packageName := "pkg"
    targets := [] }

/-- The same package with the generic Target already cached. -/
def pkgCached : Package := { pkgFresh with targets := [("generic", tgtOut)] }

/-! ## Supporting lemmas. -/

theorem stbHashLoop_eq_foldl (l : List Nat) (h : Int) :
    stbHashLoop h l = l.foldl (fun h ch => jsShl7 h + jsSar25 h + ch) h := by
  induction l generalizing h with
  | nil => rfl
  | cons ch rest ih => simpa [stbHashLoop] using ih (jsShl7 h + jsSar25 h + ch)

theorem allOutputsExist_eq_all (fs : Fs) (l : List String) :
    allOutputsExist fs l = l.all (fun o => isFile fs o) := by
  induction l with
  | nil => rfl
  | cons o rest ih =>
      by_cases h : isFile fs o = true <;> simp [allOutputsExist, h, ih]

/-! ## Claim theorems. -/

set_option maxRecDepth 100000 in
/-- Claim C1, counterexample: the claim computes the hash with the unsigned
right shift (h >>> 25).  The code of Target.prototype.targetPathFor uses the
sign-propagating shift (h >> 25), and on the resource name hellox the
accumulator turns negative before the last code unit, so the two formulas
produce different target paths under targetPath /out. -/
theorem C1_counterexample :
    Target.targetPathFor tgtOut "hellox"
      ≠ pathJoin tgtOut.targetPath (jsNumToHex (specHashUnsigned (utf16CodeUnits "hellox"))) := by
  decide

/-- Claim C1, amended: for every target and resource name, targetPathFor
joins under targetPath the toString(16) rendering of the hash obtained by
folding h = (h << 7) + (h >> 25) + ch over the UTF-16 code units starting
from 0, with << wrapping to signed 32 bits and >> the sign-propagating shift;
two implementations of that formula agree on every input. -/
theorem C1_targetPathFor (t : Target) (name : String) :
    Target.targetPathFor t name
      = pathJoin t.targetPath (jsNumToHex (specHashSigned (utf16CodeUnits name))) := by
  unfold Target.targetPathFor specHashSigned
  rw [stbHashLoop_eq_foldl]

set_option maxRecDepth 100000 in
/-- Claim C2: evaluation of the code at the failing input.  The entry for
a.txt is current on disk and its single dependency d.txt has a database entry
that is also current (its own dependenciesModified is false), yet
dependenciesModified on a.txt returns true, because the recursion is written
as r.dependenciesModified on the plain entry object r, which throws and is
caught as modified. -/
theorem C2_dependenciesModified_eval :
    sourceFileModified entMain { mtimeMs := 100, size := 5, file := true } = false
  ∧ fsSrc "/src/a.txt" = some { mtimeMs := 100, size := 5, file := true }
  ∧ SourceDatabase.query dbSrc "/src" "/src/d.txt" = some entDep
  ∧ dependenciesModified fsSrc pkgSrc entDep = false
  ∧ dependenciesModified fsSrc pkgSrc entMain = true := by
  refine ⟨rfl, by decide, by decide, rfl, rfl⟩

set_option maxRecDepth 100000 in
/-- Claim C4: evaluation of the code at the failing input.  Removing the
known key a.txt deletes the table key, sets dirty, and leaves the entry in
the entries array, because the source calls the non-mutating slice; the same
holds for the target database.  Removal of an unknown key changes nothing. -/
theorem C4_remove_eval :
    (SourceDatabase.remove dbSrc "/src" "/src/a.txt").entries = dbSrc.entries
  ∧ (SourceDatabase.remove dbSrc "/src" "/src/a.txt").entries.length = 2
  ∧ jsoGet (SourceDatabase.remove dbSrc "/src" "/src/a.txt").entryTable "a.txt" = none
  ∧ SourceDatabase.query (SourceDatabase.remove dbSrc "/src" "/src/a.txt") "/src" "/src/a.txt"
      = none
  ∧ (SourceDatabase.remove dbSrc "/src" "/src/a.txt").dirty = true
  ∧ (TargetDatabase.remove dbTgt "/out" "/out/1a2b").entries = dbTgt.entries
  ∧ (TargetDatabase.remove dbTgt "/out" "/out/1a2b").entries.length = 1
  ∧ SourceDatabase.remove dbSrc "/src" "/src/zzz.txt" = dbSrc := by
  decide

/-- Claim C6: requiresRebuild is exactly dependenciesModified OR NOT
buildOutputsExist, and buildOutputsExist is true when the target database has
no entry for the target path and otherwise true iff every recorded output
path exists as a file on the filesystem. -/
theorem C6_requiresRebuild (fs : Fs) (bundle : Package) (target : Target)
    (targetPath : String) (entry : SourceEntry) :
    requiresRebuild fs bundle target targetPath entry
      = (dependenciesModified fs bundle entry || !buildOutputsExist fs target targetPath)
  ∧ buildOutputsExist fs target targetPath
      = (match TargetDatabase.query target.database target.targetPath targetPath with
         | none => true
         | some e => e.outputs.all (fun o => isFile fs o)) := by
  constructor
  · unfold requiresRebuild
    cases h1 : dependenciesModified fs bundle entry <;>
      cases h2 : buildOutputsExist fs target targetPath <;> simp [h1, h2]
  · unfold buildOutputsExist
    cases h : TargetDatabase.query target.database target.targetPath targetPath <;>
      simp [h, allOutputsExist_eq_all]

/-- Claim C7, counterexample: with pipeline.json present but holding
malformed JSON, loadPipelineDefinition returns the empty mapping — the very
value an absent file yields — instead of surfacing a FormatError that aborts
the enclosing operation. -/
theorem C7_counterexample :
    loadPipelineDefinition fsPipeBroken "/proj/pipeline.json" = ([] : Pipeline)
  ∧ fsPipeBroken "/proj/pipeline.json" = some PipeFile.malformed := by
  exact ⟨rfl, by decide⟩

/-- Claim C7, amended: loading the pipeline definition never signals an
error; an absent file, a read failure and malformed JSON all yield the empty
mapping (the try block catches everything), and a well-formed file yields its
parsed mapping. -/
theorem C7_loadPipelineDefinition (fs : String → Option PipeFile) (path : String) :
    (fs path = none → loadPipelineDefinition fs path = [])
  ∧ (fs path = some PipeFile.malformed → loadPipelineDefinition fs path = [])
  ∧ (∀ d, fs path = some (PipeFile.wellFormed d) → loadPipelineDefinition fs path = d) := by
  refine ⟨fun h => ?_, fun h => ?_, fun d h => ?_⟩ <;> simp [loadPipelineDefinition, h]

/-- Witness for the amended claim C7 at concrete inputs. -/
theorem C7_loadPipelineDefinition_witness :
    loadPipelineDefinition fsPipeBroken "/proj/pipeline.json" = []
  ∧ loadPipelineDefinition fsPipeBroken "/elsewhere/pipeline.json" = [] :=
  ⟨(C7_loadPipelineDefinition fsPipeBroken "/proj/pipeline.json").2.1 (by decide),
   (C7_loadPipelineDefinition fsPipeBroken "/elsewhere/pipeline.json").1 (by decide)⟩

theorem jsoGet_set_self {α : Type} (t : List (String × α)) (k : String) (v : α) :
    jsoGet (jsoSet t k v) k = some v := by
  induction t with
  | nil => simp [jsoSet, jsoGet]
  | cons p rest ih =>
      by_cases h : p.1 = k <;> simp [jsoSet, jsoGet, h, ih]

theorem jsoGet_set_ne {α : Type} (t : List (String × α)) (k k2 : String) (v : α)
    (h : k ≠ k2) : jsoGet (jsoSet t k v) k2 = jsoGet t k2 := by
  induction t with
  | nil => simp [jsoSet, jsoGet, h]
  | cons p rest ih =>
      by_cases hp : p.1 = k <;> simp [jsoSet, jsoGet, hp, h, ih]

theorem jsoGet_mem {α : Type} (t : List (String × α)) (k : String) (v : α)
    (h : jsoGet t k = some v) : (k, v) ∈ t := by
  induction t with
  | nil => simp [jsoGet] at h
  | cons p rest ih =>
      rcases p with ⟨k0, v0⟩
      by_cases hp : k0 = k
      · simp [jsoGet, hp] at h
        subst hp
        subst h
        exact List.mem_cons_self _ _
      · simp [jsoGet, hp] at h
        exact List.mem_cons_of_mem _ (ih h)

theorem mem_jsoSet {α : Type} (t : List (String × α)) (k : String) (v : α) (p : String × α)
    (h : p ∈ jsoSet t k v) : p = (k, v) ∨ p ∈ t := by
  induction t with
  | nil => simpa [jsoSet] using h
  | cons q rest ih =>
      rcases q with ⟨k0, v0⟩
      by_cases hq : k0 = k
      · simp [jsoSet, hq] at h
        rcases h with h | h
        · exact Or.inl (by simp [h])
        · exact Or.inr (List.mem_cons_of_mem _ h)
      · simp [jsoSet, hq] at h
        rcases h with h | h
        · exact Or.inr (by simp [h])
        · rcases ih h with h2 | h2
          · exact Or.inl h2
          · exact Or.inr (List.mem_cons_of_mem _ h2)

theorem listPut_length_lt {α : Type} (l : List α) (i : Nat) (x : α) (h : i < l.length) :
    (listPut l i x).length = l.length := by
  simp [listPut, h]

theorem listPut_length_eq {α : Type} (l : List α) (x : α) :
    (listPut l l.length x).length = l.length + 1 := by
  simp [listPut]

theorem listPut_get_self {α : Type} (l : List α) (i : Nat) (x : α) (h : i ≤ l.length) :
    (listPut l i x).get? i = some x := by
  rcases Nat.lt_or_ge i l.length with hlt | hge
  · simp [listPut, hlt, List.get?_eq_getElem?, List.getElem?_set_eq_of_lt _ hlt]
  · have heq : i = l.length := Nat.le_antisymm h hge
    subst heq
    simp [listPut, List.get?_eq_getElem?, List.getElem?_concat_length]

theorem listPut_get_ne {α : Type} (l : List α) (i j : Nat) (x : α) (h : i ≠ j)
    (hle : i ≤ l.length) : (listPut l i x).get? j = l.get? j := by
  rcases Nat.lt_or_ge i l.length with hlt | hge
  · simp [listPut, hlt, List.get?_eq_getElem?, List.getElem?_set_ne h]
  · have heq : i = l.length := Nat.le_antisymm hle hge
    subst heq
    simp only [listPut, Nat.lt_irrefl, if_false, List.get?_eq_getElem?]
    rcases Nat.lt_or_ge j l.length with hj | hj
    · exact List.getElem?_append_left hj
    · have hjgt : l.length < j := Nat.lt_of_le_of_ne hj h
      rw [List.getElem?_eq_none (Nat.le_of_lt hjgt),
        List.getElem?_eq_none (by simpa using hjgt)]

/-- Claim C10: for every package, the empty platform name is normalized to
generic before the lookup, so targetPlatform of the empty string and of
generic are the same operation; and once a call has cached a Target, any
later call with the same platform name returns that same Target and leaves
the package unchanged, so no duplicate Target or target database is
created. -/
theorem C10_targetPlatform (fs fs2 : String → Option TDFile) (pkg : Package) :
    Package.targetPlatform fs pkg "" = Package.targetPlatform fs pkg GENERIC_PLATFORM
  ∧ (∀ name t pkg2, Package.targetPlatform fs pkg name = Except.ok (t, pkg2) →
      Package.targetPlatform fs2 pkg2 name = Except.ok (t, pkg2)) := by
  constructor
  · rfl
  · intro name t pkg2 h
    simp only [Package.targetPlatform] at h ⊢
    cases hget : jsoGet pkg.targets (if name.length = 0 then GENERIC_PLATFORM else name) with
    | some t0 =>
        rw [hget] at h
        obtain ⟨ht, hpkg⟩ : t0 = t ∧ pkg = pkg2 := by simpa using h
        subst ht
        subst hpkg
        rw [hget]
    | none =>
        rw [hget] at h
        cases hload : Target.create fs
            { packageName := pkg.packageName, packageRoot := pkg.packageRoot,
              databaseRoot := pkg.databaseRoot,
              platformName := if name.length = 0 then GENERIC_PLATFORM else name } with
        | error e => rw [hload] at h; simp [Except.map] at h
        | ok t0 =>
            rw [hload] at h
            simp only [Except.map] at h
            obtain ⟨ht, hpkg⟩ :
                t0 = t
              ∧ { pkg with
                    targets := jsoSet pkg.targets
                      (if name.length = 0 then GENERIC_PLATFORM else name) t0 } = pkg2 := by
              simpa using h
            subst ht
            subst hpkg
            simp [jsoGet_set_self]

/-- Witness for claim C10: a package that already caches a generic Target
returns it unchanged, for the empty and for the generic platform name. -/
theorem C10_targetPlatform_witness :
    Package.targetPlatform fsNoTdb pkgCached ""
      = Package.targetPlatform fsNoTdb pkgCached GENERIC_PLATFORM
  ∧ Package.targetPlatform fsNoTdb pkgCached "" = Except.ok (tgtOut, pkgCached) :=
  ⟨(C10_targetPlatform fsNoTdb fsNoTdb pkgCached).1,
   (C10_targetPlatform fsNoTdb fsNoTdb pkgCached).2 "" tgtOut pkgCached rfl⟩

theorem get?_some_lt_length {α : Type} (l : List α) (i : Nat) (x : α)
    (h : l.get? i = some x) : i < l.length := by
  by_contra hcon
  rw [List.get?_eq_getElem?, List.getElem?_eq_none (Nat.le_of_not_lt hcon)] at h
  cases h

/-- Claim C9: on any consistently indexed source database, when create
succeeds for a path (the file exists), the produced entry is immediately
returned by query with the same root and path and the database is dirty;
when an entry with the same relative path already existed the new entry
overwrites it in place leaving the entry count unchanged, and a genuinely new
relative path grows the count by one. -/
theorem C9_create_query (fs : Fs) (db : SourceDatabase) (root p : String)
    (e : SourceEntry) (db2 : SourceDatabase)
    (hinv : SInv db) (hc : SourceDatabase.create fs db root p = some (e, db2)) :
    SourceDatabase.query db2 root p = some e
  ∧ db2.dirty = true
  ∧ (∀ i, jsoGet db.entryTable (pathRelative root p) = some i →
        db2.entries.length = db.entries.length ∧ db2.entries.get? i = some e)
  ∧ (jsoGet db.entryTable (pathRelative root p) = none →
        db2.entries.length = db.entries.length + 1) := by
  cases hfs : fs p with
  | none => rw [SourceDatabase.create, hfs] at hc; cases hc
  | some st =>
      cases hget : jsoGet db.entryTable (pathRelative root p) with
      | some i =>
          have hmem : (pathRelative root p, i) ∈ db.entryTable := jsoGet_mem _ _ _ hget
          have hi2 := hinv.2 _ hmem
          have hi : i < db.entries.length := by
            cases hg : db.entries.get? i with
            | none => rw [hg] at hi2; cases hi2
            | some e0 => exact get?_some_lt_length _ _ _ hg
          rw [SourceDatabase.create, hfs] at hc
          simp only [hget] at hc
          obtain ⟨he, hdb2⟩ : _ ∧ _ = db2 := by simpa using hc
          subst he
          subst hdb2
          refine ⟨?_, rfl, ?_, ?_⟩
          · simp only [SourceDatabase.query, jsoGet_set_self]
            exact listPut_get_self _ _ _ (Nat.le_of_lt hi)
          · intro j hj
            cases hj
            exact ⟨listPut_length_lt _ _ _ hi, listPut_get_self _ _ _ (Nat.le_of_lt hi)⟩
          · intro hnone
            cases hnone
      | none =>
          rw [SourceDatabase.create, hfs] at hc
          simp only [hget] at hc
          obtain ⟨he, hdb2⟩ : _ ∧ _ = db2 := by simpa using hc
          subst he
          subst hdb2
          refine ⟨?_, rfl, ?_, ?_⟩
          · simp only [SourceDatabase.query, jsoGet_set_self]
            exact listPut_get_self _ _ _ (Nat.le_refl _)
          · intro j hj
            cases hj
          · intro _
            exact listPut_length_eq _ _

/-- Witness for claim C9: creating a.txt on the consistent database dbSrc
overwrites the existing entry in place. -/
theorem C9_create_query_witness :
    ∃ e db2, SourceDatabase.create fsSrc dbSrc "/src" "/src/a.txt" = some (e, db2)
      ∧ (SourceDatabase.query db2 "/src" "/src/a.txt" = some e
        ∧ db2.dirty = true
        ∧ (∀ i, jsoGet dbSrc.entryTable (pathRelative "/src" "/src/a.txt") = some i →
              db2.entries.length = dbSrc.entries.length ∧ db2.entries.get? i = some e)
        ∧ (jsoGet dbSrc.entryTable (pathRelative "/src" "/src/a.txt") = none →
              db2.entries.length = dbSrc.entries.length + 1)) := by
  cases hc : SourceDatabase.create fsSrc dbSrc "/src" "/src/a.txt" with
  | none =>
      exact absurd hc (by decide)
  | some pr =>
      exact ⟨pr.1, pr.2, rfl,
        C9_create_query fsSrc dbSrc "/src" "/src/a.txt" pr.1 pr.2 (by decide) (by rw [hc])⟩

theorem buildTable_preserve {α : Type} (rp : α → String) (l : List α) (i : Nat)
    (t : Table) (k : String) (h : ∀ e ∈ l, rp e ≠ k) :
    jsoGet (buildTable rp i l t) k = jsoGet t k := by
  induction l generalizing i t with
  | nil => rfl
  | cons e rest ih =>
      rw [buildTable, ih (i + 1) _ (fun e2 hm => h e2 (List.mem_cons_of_mem _ hm)),
        jsoGet_set_ne _ _ _ _ (h e (List.mem_cons_self _ _))]

theorem buildTable_spec {α : Type} (rp : α → String) (l : List α) (i : Nat) (t : Table)
    (hnd : (l.map rp).Nodup) (ht : ∀ e ∈ l, jsoGet t (rp e) = none) :
    (∀ j e, l.get? j = some e → jsoGet (buildTable rp i l t) (rp e) = some (i + j))
  ∧ (∀ p ∈ buildTable rp i l t, p ∈ t ∨ ∃ j e, l.get? j = some e ∧ p = (rp e, i + j)) := by
  induction l generalizing i t with
  | nil =>
      constructor
      · intro j e hj
        cases hj
      · intro p hp
        exact Or.inl hp
  | cons e rest ih =>
      have hne : ∀ e2 ∈ rest, rp e ≠ rp e2 := by
        intro e2 hm heq
        exact (List.nodup_cons.1 (by simpa using hnd)).1 (heq ▸ List.mem_map_of_mem rp hm)
      have hnd2 : (rest.map rp).Nodup := (List.nodup_cons.1 (by simpa using hnd)).2
      have ht2 : ∀ e2 ∈ rest, jsoGet (jsoSet t (rp e) i) (rp e2) = none := by
        intro e2 hm
        rw [jsoGet_set_ne _ _ _ _ (hne e2 hm)]
        exact ht e2 (List.mem_cons_of_mem _ hm)
      obtain ⟨ih1, ih2⟩ := ih (i + 1) (jsoSet t (rp e) i) hnd2 ht2
      constructor
      · intro j e2 hj
        cases j with
        | zero =>
            cases hj
            rw [buildTable, buildTable_preserve rp rest (i + 1) _ _
              (fun x hm hx => hne x hm hx.symm), jsoGet_set_self, Nat.add_zero]
        | succ j0 =>
            have h2 := ih1 j0 e2 (by simpa using hj)
            rw [buildTable, h2]
            exact congrArg some (by omega)
      · intro p hp
        rw [buildTable] at hp
        rcases ih2 p hp with hp2 | ⟨j, e2, hj, hpe⟩
        · rcases mem_jsoSet _ _ _ _ hp2 with h3 | h3
          · exact Or.inr ⟨0, e, rfl, by simp [h3]⟩
          · exact Or.inl h3
        · refine Or.inr ⟨j + 1, e2, by simpa using hj, ?_⟩
          have harith : i + 1 + j = i + (j + 1) := by omega
          rw [hpe, harith]

theorem tableIndexes_buildTable {α : Type} (rp : α → String) (l : List α)
    (hnd : (l.map rp).Nodup) : tableIndexes rp l (buildTable rp 0 l []) := by
  obtain ⟨h1, h2⟩ := buildTable_spec rp l 0 [] hnd (fun e _ => rfl)
  constructor
  · intro i hi
    cases hg : l.get? i with
    | none =>
        exact absurd (List.get?_eq_none.1 hg) (Nat.not_le_of_lt hi)
    | some e =>
        have h3 := h1 i e hg
        rw [Nat.zero_add] at h3
        show some (jsoGet (buildTable rp 0 l []) (rp e)) = some (some i)
        exact congrArg some h3
  · intro p hp
    rcases h2 p hp with h | ⟨j, e, hj, hpe⟩
    · cases h
    · subst hpe
      show (l.get? (0 + j)).map rp = some (rp e)
      rw [Nat.zero_add, hj]
      rfl

/-- Claim C8: loading a source (or target) database from a path with no file
yields, without error, a database with empty entries and dirty set; loading a
well-formed file yields a database with dirty cleared, the entries of the
file with each writeTime rehydrated, and the entry table rebuilt from those
entries (consistently indexed whenever the file's relative paths are
distinct); an unreadable or malformed existing file signals an IoError or
FormatError instead of returning a database. -/
theorem C8_loadDatabases (fs : String → Option SDFile) (fst : String → Option TDFile)
    (path : String) :
    (fs path = none → loadSourceDatabase fs path
        = Except.ok { bundleName := "", entries := [], entryTable := [], dirty := true })
  ∧ (∀ d, fs path = some (SDFile.wellFormed d) →
        ∃ db, loadSourceDatabase fs path = Except.ok db
          ∧ db.dirty = false
          ∧ db.entries = d.entries.map rehydrateSourceEntry
          ∧ ((d.entries.map (fun r => r.relativePath)).Nodup → SInv db))
  ∧ (fs path = some SDFile.unreadable →
        loadSourceDatabase fs path = Except.error DbError.ioError)
  ∧ (fs path = some SDFile.malformed →
        loadSourceDatabase fs path = Except.error DbError.formatError)
  ∧ (fst path = none → loadTargetDatabase fst path
        = Except.ok { bundleName := "", platform := "", entries := [], entryTable := [],
                      dirty := true })
  ∧ (∀ d, fst path = some (TDFile.wellFormed d) →
        ∃ db, loadTargetDatabase fst path = Except.ok db
          ∧ db.dirty = false
          ∧ db.entries = d.entries
          ∧ ((d.entries.map (fun e => e.relativePath)).Nodup → TInv db))
  ∧ (fst path = some TDFile.unreadable →
        loadTargetDatabase fst path = Except.error DbError.ioError)
  ∧ (fst path = some TDFile.malformed →
        loadTargetDatabase fst path = Except.error DbError.formatError) := by
  refine ⟨fun h => ?_, fun d h => ?_, fun h => ?_, fun h => ?_,
    fun h => ?_, fun d h => ?_, fun h => ?_, fun h => ?_⟩
  · simp [loadSourceDatabase, h, SourceDatabase.new]
  · refine ⟨SourceDatabase.loadData d, ?_, rfl, rfl, ?_⟩
    · simp [loadSourceDatabase, h, SourceDatabase.load]
    · intro hnd
      unfold SInv SourceDatabase.loadData
      apply tableIndexes_buildTable
      rw [List.map_map]
      exact hnd
  · simp [loadSourceDatabase, h, SourceDatabase.load]
  · simp [loadSourceDatabase, h, SourceDatabase.load]
  · simp [loadTargetDatabase, h, TargetDatabase.new]
  · refine ⟨TargetDatabase.loadData d, ?_, rfl, rfl, ?_⟩
    · simp [loadTargetDatabase, h, TargetDatabase.load]
    · intro hnd
      unfold TInv TargetDatabase.loadData
      exact tableIndexes_buildTable _ _ hnd
  · simp [loadTargetDatabase, h, TargetDatabase.load]
  · simp [loadTargetDatabase, h, TargetDatabase.load]

/-- Witness for claim C8 at concrete stores: a missing path, a well-formed
file, an unreadable file and a malformed file, for both database kinds. -/
theorem C8_loadDatabases_witness :
    loadSourceDatabase fsDbFiles "/db/missing.source.json"
      = Except.ok { bundleName := "", entries := [], entryTable := [], dirty := true }
  ∧ (∃ db, loadSourceDatabase fsDbFiles "/db/good.source.json" = Except.ok db
      ∧ db.dirty = false
      ∧ db.entries = sdGood.entries.map rehydrateSourceEntry
      ∧ ((sdGood.entries.map (fun r => r.relativePath)).Nodup → SInv db))
  ∧ loadSourceDatabase fsDbFiles "/db/locked.source.json" = Except.error DbError.ioError
  ∧ loadSourceDatabase fsDbFiles "/db/bad.source.json" = Except.error DbError.formatError
  ∧ loadTargetDatabase fsTdbFiles "/db/missing.target.json"
      = Except.ok { bundleName := "", platform := "", entries := [], entryTable := [],
                    dirty := true }
  ∧ (∃ db, loadTargetDatabase fsTdbFiles "/db/good.target.json" = Except.ok db
      ∧ db.dirty = false
      ∧ db.entries = tdGood.entries
      ∧ ((tdGood.entries.map (fun e => e.relativePath)).Nodup → TInv db))
  ∧ loadTargetDatabase fsTdbFiles "/db/locked.target.json" = Except.error DbError.ioError
  ∧ loadTargetDatabase fsTdbFiles "/db/bad.target.json" = Except.error DbError.formatError :=
  ⟨(C8_loadDatabases fsDbFiles fsTdbFiles "/db/missing.source.json").1 (by decide),
   (C8_loadDatabases fsDbFiles fsTdbFiles "/db/good.source.json").2.1 sdGood (by decide),
   (C8_loadDatabases fsDbFiles fsTdbFiles "/db/locked.source.json").2.2.1 (by decide),
   (C8_loadDatabases fsDbFiles fsTdbFiles "/db/bad.source.json").2.2.2.1 (by decide),
   (C8_loadDatabases fsDbFiles fsTdbFiles "/db/missing.target.json").2.2.2.2.1 (by decide),
   (C8_loadDatabases fsDbFiles fsTdbFiles "/db/good.target.json").2.2.2.2.2.1 tdGood (by decide),
   (C8_loadDatabases fsDbFiles fsTdbFiles "/db/locked.target.json").2.2.2.2.2.2.1 (by decide),
   (C8_loadDatabases fsDbFiles fsTdbFiles "/db/bad.target.json").2.2.2.2.2.2.2 (by decide)⟩

theorem tableIndexes_nodup {α : Type} (rp : α → String) (entries : List α) (table : Table)
    (hinv : tableIndexes rp entries table) : (entries.map rp).Nodup := by
  rw [List.nodup_iff_get?_ne_get?]
  intro i j hij hj heq
  rw [List.length_map] at hj
  have hi : i < entries.length := Nat.lt_trans hij hj
  have h1 := hinv.1 i hi
  have h2 := hinv.1 j hj
  cases hgi : entries.get? i with
  | none => exact absurd (List.get?_eq_none.1 hgi) (Nat.not_le_of_lt hi)
  | some x =>
      cases hgj : entries.get? j with
      | none => exact absurd (List.get?_eq_none.1 hgj) (Nat.not_le_of_lt hj)
      | some y =>
          rw [hgi] at h1
          rw [hgj] at h2
          rw [List.get?_map, List.get?_map, hgi, hgj] at heq
          have hxy : rp x = rp y := by simpa using heq
          have e1 : jsoGet table (rp x) = some i := by simpa using h1
          have e2 : jsoGet table (rp y) = some j := by simpa using h2
          rw [hxy, e2] at e1
          have hji : j = i := by simpa using e1
          exact absurd hji.symm (Nat.ne_of_lt hij)

theorem tableIndexes_put {α : Type} (rp : α → String) (entries : List α) (table : Table)
    (e : α) (idx : Nat)
    (hinv : tableIndexes rp entries table)
    (hidx : jsoGet table (rp e) = some idx
          ∨ (jsoGet table (rp e) = none ∧ idx = entries.length)) :
    tableIndexes rp (listPut entries idx e) (jsoSet table (rp e) idx) := by
  have hle : idx ≤ entries.length := by
    rcases hidx with hsome | ⟨_, hlen⟩
    · have hmem := jsoGet_mem _ _ _ hsome
      have h2 := hinv.2 _ hmem
      cases hg : entries.get? idx with
      | none => rw [hg] at h2; cases h2
      | some x => exact Nat.le_of_lt (get?_some_lt_length _ _ _ hg)
    · exact Nat.le_of_eq hlen
  constructor
  · intro i hi
    by_cases hieq : i = idx
    · subst hieq
      rw [listPut_get_self _ _ _ hle]
      show some (jsoGet (jsoSet table (rp e) i) (rp e)) = some (some i)
      rw [jsoGet_set_self]
    · have hi0 : i < entries.length := by
        rcases hidx with hsome | ⟨_, hlen⟩
        · rwa [listPut_length_lt _ _ _ (Nat.lt_of_le_of_ne hle (by
            intro hcon
            subst hcon
            rcases hinv with ⟨hfwd, hbwd⟩
            have hmem := jsoGet_mem _ _ _ hsome
            have h2 := hbwd _ hmem
            cases hg : entries.get? entries.length with
            | none => rw [hg] at h2; cases h2
            | some x => exact absurd (get?_some_lt_length _ _ _ hg) (Nat.lt_irrefl _)))] at hi
        · subst hlen
          rw [listPut_length_eq] at hi
          omega
      have h1 := hinv.1 i hi0
      cases hg : entries.get? i with
      | none => exact absurd (List.get?_eq_none.1 hg) (Nat.not_le_of_lt hi0)
      | some x =>
          rw [hg] at h1
          have hx : jsoGet table (rp x) = some i := by simpa using h1
          have hne : rp e ≠ rp x := by
            intro hcon
            rw [← hcon] at hx
            rcases hidx with hsome | ⟨hnone, _⟩
            · rw [hsome] at hx
              exact hieq (by simpa using hx.symm)
            · rw [hnone] at hx
              cases hx
          rw [listPut_get_ne _ _ _ _ (fun hcon => hieq hcon.symm) hle, hg]
          show some (jsoGet (jsoSet table (rp e) idx) (rp x)) = some (some i)
          rw [jsoGet_set_ne _ _ _ _ hne, hx]
  · intro p hp
    rcases mem_jsoSet _ _ _ _ hp with hpe | hpt
    · subst hpe
      show ((listPut entries idx e).get? idx).map rp = some (rp e)
      rw [listPut_get_self _ _ _ hle]
      rfl
    · have h2 := hinv.2 _ hpt
      by_cases hpeq : p.2 = idx
      · rcases hidx with hsome | ⟨hnone, hlen⟩
        · have hmem := jsoGet_mem _ _ _ hsome
          have h3 := hinv.2 _ hmem
          rw [hpeq] at h2
          cases hg : entries.get? idx with
          | none => rw [hg] at h2; cases h2
          | some x =>
              rw [hg] at h2 h3
              have hp1 : rp x = p.1 := by simpa using h2
              have hpe2 : rp x = rp e := by simpa using h3
              rw [hpeq, listPut_get_self _ _ _ hle]
              show some (rp e) = some p.1
              rw [← hpe2, hp1]
        · rw [hpeq, hlen] at h2
          cases hg : entries.get? entries.length with
          | none => rw [hg] at h2; cases h2
          | some x => exact absurd (get?_some_lt_length _ _ _ hg) (Nat.lt_irrefl _)
      · rw [listPut_get_ne _ _ _ _ (fun hcon => hpeq hcon.symm) hle]
        exact h2

set_option maxRecDepth 100000 in
/-- Claim C5, counterexample: the indexing invariant holds on the concrete
two-entry database dbSrc but is destroyed by remove of a known key, since the
entry stays in the entries array while its table key disappears. -/
theorem C5_counterexample :
    SInv dbSrc ∧ ¬ SInv (SourceDatabase.remove dbSrc "/src" "/src/a.txt") := by
  decide

/-- Claim C5, amended: the indexing invariant (every entry is indexed in the
table under its relative path, the table points back at the entries, and
relative paths are unique) holds for freshly constructed databases, is
established by load whenever the loaded entries have distinct relative paths,
and is preserved by save, by create, and by remove of an unknown key, for both
the source and the target database; remove of a known key breaks it. -/
theorem C5_invariants :
    SInv SourceDatabase.new
  ∧ TInv TargetDatabase.new
  ∧ (∀ d, (d.entries.map (fun r => r.relativePath)).Nodup → SInv (SourceDatabase.loadData d))
  ∧ (∀ d, (d.entries.map (fun e => e.relativePath)).Nodup → TInv (TargetDatabase.loadData d))
  ∧ (∀ db, SInv db → SInv (SourceDatabase.save db).2)
  ∧ (∀ db, TInv db → TInv (TargetDatabase.save db).2)
  ∧ (∀ fs db root p e db2, SInv db →
        SourceDatabase.create fs db root p = some (e, db2) → SInv db2)
  ∧ (∀ db root sp tp cn, TInv db → TInv (TargetDatabase.create db root sp tp cn).2)
  ∧ (∀ db root p, jsoGet db.entryTable (pathRelative root p) = none →
        SourceDatabase.remove db root p = db)
  ∧ (∀ db root p, jsoGet db.entryTable (pathRelative root p) = none →
        TargetDatabase.remove db root p = db)
  ∧ (∀ db, SInv db → (db.entries.map (fun e => e.relativePath)).Nodup)
  ∧ (∀ db, TInv db → (db.entries.map (fun e => e.relativePath)).Nodup) := by
  refine ⟨by decide, by decide,
    fun d hnd => ?_, fun d hnd => ?_, fun db h => h, fun db h => h,
    fun fs db root p e db2 hinv hc => ?_, fun db root sp tp cn hinv => ?_,
    fun db root p h => by simp [SourceDatabase.remove, h],
    fun db root p h => by simp [TargetDatabase.remove, h],
    fun db h => tableIndexes_nodup _ _ _ h, fun db h => tableIndexes_nodup _ _ _ h⟩
  · unfold SInv SourceDatabase.loadData
    apply tableIndexes_buildTable
    rw [List.map_map]
    exact hnd
  · exact tableIndexes_buildTable _ _ hnd
  · cases hfs : fs p with
    | none => rw [SourceDatabase.create, hfs] at hc; cases hc
    | some st =>
        rw [SourceDatabase.create, hfs] at hc
        cases hget : jsoGet db.entryTable (pathRelative root p) with
        | some i =>
            simp only [hget] at hc
            obtain ⟨he, hdb2⟩ : _ ∧ _ = db2 := by simpa using hc
            subst he
            subst hdb2
            exact tableIndexes_put _ _ _ _ _ hinv (Or.inl hget)
        | none =>
            simp only [hget] at hc
            obtain ⟨he, hdb2⟩ : _ ∧ _ = db2 := by simpa using hc
            subst he
            subst hdb2
            exact tableIndexes_put _ _ _ _ _ hinv (Or.inr ⟨hget, rfl⟩)
  · show TInv (TargetDatabase.create db root sp tp cn).2
    unfold TInv TargetDatabase.create
    simp only
    cases hget : jsoGet db.entryTable (pathRelative root tp) with
    | some i =>
        simp only [hget]
        exact tableIndexes_put _ _ _ _ _ hinv (Or.inl hget)
    | none =>
        simp only [hget]
        exact tableIndexes_put _ _ _ _ _ hinv (Or.inr ⟨hget, rfl⟩)

/-- Witness for the amended claim C5 at concrete inputs: load of a distinct
file, save, create and unknown-key removal all keep dbSrc consistent. -/
theorem C5_invariants_witness :
    SInv (SourceDatabase.loadData sdGood)
  ∧ TInv (TargetDatabase.loadData tdGood)
  ∧ SInv (SourceDatabase.save dbSrc).2
  ∧ TInv (TargetDatabase.save dbTgt).2
  ∧ SourceDatabase.remove dbSrc "/src" "/src/zzz.txt" = dbSrc
  ∧ (dbSrc.entries.map (fun e => e.relativePath)).Nodup :=
  ⟨C5_invariants.2.2.1 sdGood (by decide),
   C5_invariants.2.2.2.1 tdGood (by decide),
   C5_invariants.2.2.2.2.1 dbSrc (by decide),
   C5_invariants.2.2.2.2.2.1 dbTgt (by decide),
   C5_invariants.2.2.2.2.2.2.2.2.1 dbSrc "/src" "/src/zzz.txt" (by decide),
   C5_invariants.2.2.2.2.2.2.2.2.2.2.1 dbSrc (by decide)⟩

theorem jsIndexOfAux_not_mem (c : Char) (l : List Char) (h : c ∉ l) :
    jsIndexOfAux c l = none := by
  induction l with
  | nil => rfl
  | cons x xs ih =>
      have hx : x ≠ c := fun hc => h (hc ▸ List.mem_cons_self _ _)
      simp [jsIndexOfAux, hx, ih (fun hm => h (List.mem_cons_of_mem _ hm))]

theorem jsIndexOfAux_append (c : Char) (pre suf : List Char) (h : c ∉ pre) :
    jsIndexOfAux c (pre ++ c :: suf) = some pre.length := by
  induction pre with
  | nil => simp [jsIndexOfAux]
  | cons x xs ih =>
      have hx : x ≠ c := fun hc => h (hc ▸ List.mem_cons_self _ _)
      simp [jsIndexOfAux, hx, ih (fun hm => h (List.mem_cons_of_mem _ hm))]

theorem jsLastIndexOfAux_not_mem (c : Char) (l : List Char) (h : c ∉ l) :
    jsLastIndexOfAux c l = none := by
  induction l with
  | nil => rfl
  | cons x xs ih =>
      have hx : x ≠ c := fun hc => h (hc ▸ List.mem_cons_self _ _)
      simp [jsLastIndexOfAux, hx, ih (fun hm => h (List.mem_cons_of_mem _ hm))]

theorem jsLastIndexOfAux_append (c : Char) (pre suf : List Char) (h : c ∉ suf) :
    jsLastIndexOfAux c (pre ++ c :: suf) = some pre.length := by
  induction pre with
  | nil => simp [jsLastIndexOfAux, jsLastIndexOfAux_not_mem c suf h]
  | cons x xs ih => simp [jsLastIndexOfAux, ih]

theorem jsSubstring_nat (l : List Char) (a b : Nat) (hab : a ≤ b) (hb : b ≤ l.length) :
    jsSubstring l (a : Int) (b : Int) = (l.take b).drop a := by
  unfold jsSubstring clampIdx
  simp only [Int.toNat_ofNat, Nat.min_eq_left (Nat.le_trans hab hb), Nat.min_eq_left hb,
    Nat.max_eq_right hab, Nat.min_eq_left hab]

theorem splitOnChar_not_mem (sep : Char) (p : List Char) (h : sep ∉ p) :
    splitOnChar sep p = [p] := by
  induction p with
  | nil => rfl
  | cons c rest ih =>
      have hc : c ≠ sep := fun hcc => h (hcc ▸ List.mem_cons_self _ _)
      simp [splitOnChar, hc, ih (fun hm => h (List.mem_cons_of_mem _ hm))]

theorem splitOnChar_append (sep : Char) (p t : List Char) (h : sep ∉ p) :
    splitOnChar sep (p ++ sep :: t) = p :: splitOnChar sep t := by
  induction p with
  | nil => simp [splitOnChar]
  | cons c rest ih =>
      have hc : c ≠ sep := fun hcc => h (hcc ▸ List.mem_cons_self _ _)
      rw [List.cons_append, splitOnChar]
      simp only [hc, if_false]
      rw [ih (fun hm => h (List.mem_cons_of_mem _ hm))]

theorem joinDots_concat (ps : List (List Char)) (x : List Char) (h : ps ≠ []) :
    joinDots (ps ++ [x]) = joinDots ps ++ '.' :: x := by
  induction ps with
  | nil => cases h rfl
  | cons p rest ih =>
      cases rest with
      | nil => rfl
      | cons q qs =>
          show joinDots (p :: (q :: qs ++ [x])) = (p ++ '.' :: joinDots (q :: qs)) ++ '.' :: x
          rw [joinDots]
          · rw [ih (by simp), List.append_assoc]
            rfl
          · simp

theorem splitOnChar_joinDots (ps : List (List Char)) (h : ∀ p ∈ ps, '.' ∉ p)
    (hne : ps ≠ []) : splitOnChar '.' (joinDots ps) = ps := by
  induction ps with
  | nil => cases hne rfl
  | cons p rest ih =>
      cases rest with
      | nil => exact splitOnChar_not_mem '.' p (h p (List.mem_cons_self _ _))
      | cons q qs =>
          show splitOnChar '.' (p ++ '.' :: joinDots (q :: qs)) = p :: q :: qs
          rw [splitOnChar_append '.' _ _ (h p (List.mem_cons_self _ _)),
            ih (fun r hr => h r (List.mem_cons_of_mem _ hr)) (by simp)]

theorem dropWhile_eq_self_of_all (p : Char → Bool) (l : List Char)
    (h : ∀ c ∈ l, p c = false) : l.dropWhile p = l := by
  cases l with
  | nil => rfl
  | cons c t => simp [List.dropWhile_cons, h c (List.mem_cons_self _ _)]

theorem takeWhile_eq_self_of_all (p : Char → Bool) (l : List Char)
    (h : ∀ c ∈ l, p c = true) : l.takeWhile p = l := by
  induction l with
  | nil => rfl
  | cons c t ih =>
      simp [List.takeWhile_cons, h c (List.mem_cons_self _ _),
        ih (fun x hm => h x (List.mem_cons_of_mem _ hm))]

theorem takeWhile_append_of_all (p : Char → Bool) (l1 l2 : List Char)
    (h : ∀ c ∈ l1, p c = true) :
    (l1 ++ l2).takeWhile p = l1 ++ l2.takeWhile p := by
  induction l1 with
  | nil => rfl
  | cons c t ih =>
      simp [List.takeWhile_cons, h c (List.mem_cons_self _ _),
        ih (fun x hm => h x (List.mem_cons_of_mem _ hm))]

theorem jsBasename_no_slash (cs : List Char) (h : ∀ c ∈ cs, c ≠ '/') :
    jsBasename ⟨cs⟩ = ⟨cs⟩ := by
  unfold jsBasename
  show String.mk ((cs.reverse.dropWhile (· = '/')).takeWhile (· ≠ '/')).reverse = String.mk cs
  rw [dropWhile_eq_self_of_all _ _ (fun c hm => by
      simp [h c (List.mem_reverse.1 hm)]),
    takeWhile_eq_self_of_all _ _ (fun c hm => by
      simp [h c (List.mem_reverse.1 hm)]),
    List.reverse_reverse]

theorem jsBasename_dir (d fn : List Char) (hfn : fn ≠ []) (h : ∀ c ∈ fn, c ≠ '/') :
    jsBasename ⟨d ++ '/' :: fn⟩ = ⟨fn⟩ := by
  unfold jsBasename
  show String.mk (((d ++ '/' :: fn).reverse.dropWhile (· = '/')).takeWhile (· ≠ '/')).reverse
      = String.mk fn
  have hrev : (d ++ '/' :: fn).reverse = fn.reverse ++ '/' :: d.reverse := by
    rw [List.reverse_append, List.reverse_cons, List.append_assoc]
    rfl
  rw [hrev]
  cases hfr : fn.reverse with
  | nil => exact absurd (by simpa using congrArg List.reverse hfr) hfn
  | cons c t =>
      have hmemc : c ∈ fn := List.mem_reverse.1 (hfr ▸ List.mem_cons_self c t)
      have hc : c ≠ '/' := h c hmemc
      have hstep : ((c :: t) ++ '/' :: d.reverse).dropWhile (fun x => x = '/')
          = (c :: t) ++ '/' :: d.reverse := by
        rw [List.cons_append, List.dropWhile_cons]
        simp [hc]
      rw [hstep, takeWhile_append_of_all _ _ _ (fun x hm => by
        simp [h x (List.mem_reverse.1 (hfr ▸ hm))])]
      have hsent : ('/' :: d.reverse).takeWhile (fun x => ¬x = '/') = [] := by
        simp [List.takeWhile_cons]
      rw [hsent, List.append_nil, ← hfr, List.reverse_reverse]

theorem jsSubstring_zero (l : List Char) (b : Nat) (hb : b ≤ l.length) :
    jsSubstring l 0 (b : Int) = l.take b := by
  have h0 : ((0 : Nat) : Int) = (0 : Int) := rfl
  rw [← h0, jsSubstring_nat l 0 b (Nat.zero_le b) hb, List.drop_zero]

theorem jsSubstring_zero_neg (l : List Char) : jsSubstring l 0 (-1) = [] := by
  simp [jsSubstring, clampIdx]

theorem parse_one_dot (n x : List Char) (hn : '.' ∉ n) (hx : '.' ∉ x)
    (hsl : ∀ c ∈ n ++ '.' :: x, c ≠ '/') :
    parseResourcePath ⟨n ++ '.' :: x⟩
      = { resourceName := ⟨n⟩, resourceType := ⟨x⟩, properties := [""] } := by
  have hfp : jsIndexOf '.' (n ++ '.' :: x) = (n.length : Int) := by
    unfold jsIndexOf
    rw [jsIndexOfAux_append _ _ _ hn]
  have hlp : jsLastIndexOf '.' (n ++ '.' :: x) = (n.length : Int) := by
    unfold jsLastIndexOf
    rw [jsLastIndexOfAux_append _ _ _ hx]
  have hname : jsSubstring (n ++ '.' :: x) 0 (n.length : Int) = n := by
    rw [jsSubstring_zero _ _ (by simp), List.take_left' rfl]
  have htype : jsSubstring (n ++ '.' :: x) ((n.length : Int) + 1)
      ((n ++ '.' :: x).length : Int) = x := by
    have hc1 : ((n.length : Int) + 1) = ((n.length + 1 : Nat) : Int) := by omega
    rw [hc1, jsSubstring_nat _ _ _ (by simp) (by simp), List.take_length,
      List.append_cons, List.drop_left' (by simp)]
  simp only [parseResourcePath, jsBasename_no_slash _ hsl, hfp, hlp, if_pos rfl,
    hname, htype]
  rfl

theorem parse_multi_dot (n m x : List Char) (hn : '.' ∉ n) (hx : '.' ∉ x)
    (hsl : ∀ c ∈ n ++ '.' :: (m ++ '.' :: x), c ≠ '/') :
    parseResourcePath ⟨n ++ '.' :: (m ++ '.' :: x)⟩
      = { resourceName := ⟨n⟩, resourceType := ⟨x⟩,
          properties := (splitOnChar '.' m).map (fun g => (⟨g⟩ : String)) } := by
  have hcs : n ++ '.' :: (m ++ '.' :: x) = (n ++ '.' :: m) ++ '.' :: x := by simp
  have hfp : jsIndexOf '.' (n ++ '.' :: (m ++ '.' :: x)) = (n.length : Int) := by
    unfold jsIndexOf
    rw [jsIndexOfAux_append _ _ _ hn]
  have hlp : jsLastIndexOf '.' (n ++ '.' :: (m ++ '.' :: x))
      = ((n ++ '.' :: m).length : Int) := by
    unfold jsLastIndexOf
    rw [hcs, jsLastIndexOfAux_append _ _ _ hx]
  have hne : (n.length : Int) ≠ ((n ++ '.' :: m).length : Int) := by
    simp only [List.length_append, List.length_cons]
    omega
  have hname : jsSubstring (n ++ '.' :: (m ++ '.' :: x)) 0 (n.length : Int) = n := by
    rw [jsSubstring_zero _ _ (by simp), List.take_left' rfl]
  have hmid : jsSubstring (n ++ '.' :: (m ++ '.' :: x)) ((n.length : Int) + 1)
      ((n ++ '.' :: m).length : Int) = m := by
    have hc1 : ((n.length : Int) + 1) = ((n.length + 1 : Nat) : Int) := by omega
    rw [hc1, jsSubstring_nat _ _ _ (by simp)
        (by simp only [List.length_append, List.length_cons]; omega),
      hcs, List.take_left' rfl, List.append_cons, List.drop_left' (by simp)]
  have htype : jsSubstring (n ++ '.' :: (m ++ '.' :: x))
      (((n ++ '.' :: m).length : Int) + 1)
      ((n ++ '.' :: (m ++ '.' :: x)).length : Int) = x := by
    have hc1 : (((n ++ '.' :: m).length : Int) + 1)
        = (((n ++ '.' :: m).length + 1 : Nat) : Int) := by omega
    rw [hc1, jsSubstring_nat _ _ _
        (by simp only [List.length_append, List.length_cons]; omega) (Nat.le_refl _),
      List.take_length, hcs, List.append_cons (n ++ '.' :: m) '.' x,
      List.drop_left' (by simp only [List.length_append, List.length_cons,
        List.length_nil])]
  simp only [parseResourcePath, jsBasename_no_slash _ hsl, hfp, hlp, if_neg hne,
    hname, hmid, htype]

theorem parse_no_dot (cs : List Char) (hd : '.' ∉ cs) (hsl : ∀ c ∈ cs, c ≠ '/') :
    parseResourcePath ⟨cs⟩
      = { resourceName := "", resourceType := ⟨cs⟩, properties := [""] } := by
  have hfp : jsIndexOf '.' cs = -1 := by
    unfold jsIndexOf
    rw [jsIndexOfAux_not_mem _ _ hd]
  have hlp : jsLastIndexOf '.' cs = -1 := by
    unfold jsLastIndexOf
    rw [jsLastIndexOfAux_not_mem _ _ hd]
  have hname : jsSubstring cs 0 (-1) = [] := jsSubstring_zero_neg cs
  have htype : jsSubstring cs (-1 + 1) (cs.length : Int) = cs := by
    have hc1 : (-1 + 1 : Int) = ((0 : Nat) : Int) := by omega
    rw [hc1, jsSubstring_nat _ _ _ (Nat.zero_le _) (Nat.le_refl _), List.take_length,
      List.drop_zero]
  simp only [parseResourcePath, jsBasename_no_slash _ hsl, hfp, hlp, if_pos rfl,
    hname, htype]
  rfl

theorem joinDots_cons (p : List Char) (ps : List (List Char)) (h : ps ≠ []) :
    joinDots (p :: ps) = p ++ '.' :: joinDots ps := by
  cases ps with
  | nil => cases h rfl
  | cons q qs => rfl

theorem mem_joinDots (c : Char) (ps : List (List Char)) (h : c ∈ joinDots ps) :
    c = '.' ∨ ∃ p ∈ ps, c ∈ p := by
  induction ps with
  | nil => cases h
  | cons p rest ih =>
      cases rest with
      | nil => exact Or.inr ⟨p, List.mem_cons_self _ _, h⟩
      | cons q qs =>
          rcases List.mem_append.1 h with h1 | h1
          · exact Or.inr ⟨p, List.mem_cons_self _ _, h1⟩
          · rcases List.mem_cons.1 h1 with h2 | h2
            · exact Or.inl h2
            · rcases ih h2 with h3 | ⟨r, hr, hcr⟩
              · exact Or.inl h3
              · exact Or.inr ⟨r, List.mem_cons_of_mem _ hr, hcr⟩

theorem jsBasename_id (s : String) (h : ∀ c ∈ s.data, c ≠ '/') :
    jsBasename s = s := jsBasename_no_slash s.data h

/-- Claim C3, counterexample: on the dot-free basename foo the code yields an
empty resourceName and the whole basename as resourceType, the opposite of
the claim's final clause. -/
theorem C3_counterexample :
    (parseResourcePath "foo").resourceName = ""
  ∧ (parseResourcePath "foo").resourceType = "foo"
  ∧ (parseResourcePath "foo").resourceName ≠ "foo" := by
  decide

/-- Claim C3, amended: for every input path whose basename is built from
dot-free name, property and extension parts, parseResourcePath maps a
basename name.prop1...ext to that name, extension and property list; a
basename with exactly one dot yields properties with a single empty string; a
basename with no dot yields an empty resourceName and the whole basename as
resourceType (not the reverse, as the code clamps substring(0, -1) to the
empty string and substring(0) returns everything).  A directory prefix before
any nonempty slash-free basename never changes the result, and the three
basename forms are also proved directly for paths carrying a directory
component. -/
theorem C3_parseResourcePath (name ext s dir : String) (props : List String)
    (hn : ∀ c ∈ name.data, c ≠ '.' ∧ c ≠ '/')
    (he : ∀ c ∈ ext.data, c ≠ '.' ∧ c ≠ '/')
    (hp : ∀ q ∈ props, ∀ c ∈ q.data, c ≠ '.' ∧ c ≠ '/')
    (hs : ∀ c ∈ s.data, c ≠ '.' ∧ c ≠ '/') :
    parseResourcePath ⟨joinDots [name.data, ext.data]⟩
      = { resourceName := name, resourceType := ext, properties := [""] }
  ∧ (props ≠ [] →
      parseResourcePath ⟨joinDots (name.data :: props.map String.data ++ [ext.data])⟩
        = { resourceName := name, resourceType := ext, properties := props })
  ∧ parseResourcePath s
      = { resourceName := "", resourceType := s, properties := [""] }
  ∧ (∀ fn : String, fn.data ≠ [] → (∀ c ∈ fn.data, c ≠ '/') →
      parseResourcePath ⟨dir.data ++ '/' :: fn.data⟩ = parseResourcePath fn)
  ∧ parseResourcePath ⟨dir.data ++ '/' :: joinDots [name.data, ext.data]⟩
      = { resourceName := name, resourceType := ext, properties := [""] }
  ∧ (props ≠ [] →
      parseResourcePath
          ⟨dir.data ++ '/' :: joinDots (name.data :: props.map String.data ++ [ext.data])⟩
        = { resourceName := name, resourceType := ext, properties := props })
  ∧ (s.data ≠ [] →
      parseResourcePath ⟨dir.data ++ '/' :: s.data⟩
        = { resourceName := "", resourceType := s, properties := [""] }) := by
  have hdn : '.' ∉ name.data := fun hm => (hn _ hm).1 rfl
  have hde : '.' ∉ ext.data := fun hm => (he _ hm).1 rfl
  have hsl1 : ∀ c ∈ name.data ++ '.' :: ext.data, c ≠ '/' := by
    intro c hm
    rcases List.mem_append.1 hm with h1 | h1
    · exact (hn c h1).2
    · rcases List.mem_cons.1 h1 with h2 | h2
      · subst h2; decide
      · exact (he c h2).2
  have hslm : ∀ c ∈ joinDots ((name.data :: props.map String.data) ++ [ext.data]),
      c ≠ '/' := by
    intro c hm
    rcases mem_joinDots c _ hm with h1 | ⟨p, hpmem, hcp⟩
    · subst h1; decide
    · rcases List.mem_append.1 hpmem with hpm | hpm
      · rcases List.mem_cons.1 hpm with hpm2 | hpm2
        · subst hpm2; exact (hn c hcp).2
        · rcases List.mem_map.1 hpm2 with ⟨q, hq, hqe⟩
          exact (hp q hq c (hqe ▸ hcp)).2
      · rcases List.mem_cons.1 hpm with hpm2 | hpm2
        · subst hpm2; exact (he c hcp).2
        · cases hpm2
  have h1 : parseResourcePath ⟨joinDots [name.data, ext.data]⟩
      = { resourceName := name, resourceType := ext, properties := [""] } :=
    parse_one_dot name.data ext.data hdn hde hsl1
  have h2 : props ≠ [] →
      parseResourcePath ⟨joinDots (name.data :: props.map String.data ++ [ext.data])⟩
        = { resourceName := name, resourceType := ext, properties := props } := by
    intro hprops
    have hmidne : props.map String.data ≠ [] := by
      intro hcon
      exact hprops (List.map_eq_nil.1 hcon)
    have hjoin : joinDots (name.data :: props.map String.data ++ [ext.data])
        = name.data ++ '.' :: (joinDots (props.map String.data) ++ '.' :: ext.data) := by
      rw [List.cons_append, joinDots_cons _ _ (by simp),
        joinDots_concat _ _ hmidne]
    have hmdots : ∀ p ∈ props.map String.data, '.' ∉ p := by
      intro p hm hdot
      rcases List.mem_map.1 hm with ⟨q, hq, hqe⟩
      exact (hp q hq '.' (hqe ▸ hdot)).1 rfl
    have hsl : ∀ c ∈ name.data ++ '.' ::
        (joinDots (props.map String.data) ++ '.' :: ext.data), c ≠ '/' := by
      have hj := hjoin
      rw [List.cons_append] at hj
      intro c hm
      exact hslm c (hj ▸ hm)
    rw [hjoin]
    rw [parse_multi_dot name.data (joinDots (props.map String.data)) ext.data hdn hde hsl]
    rw [splitOnChar_joinDots _ hmdots hmidne, List.map_map]
    have hcomp : ((fun g => (⟨g⟩ : String)) ∘ String.data) = id := funext (fun q => rfl)
    rw [hcomp, List.map_id]
  have h3 : parseResourcePath s
      = { resourceName := "", resourceType := s, properties := [""] } :=
    parse_no_dot s.data (fun hm => (hs _ hm).1 rfl) (fun c hm => (hs c hm).2)
  have h4 : ∀ fn : String, fn.data ≠ [] → (∀ c ∈ fn.data, c ≠ '/') →
      parseResourcePath ⟨dir.data ++ '/' :: fn.data⟩ = parseResourcePath fn := by
    intro fn hne hnos
    unfold parseResourcePath
    rw [jsBasename_dir dir.data fn.data hne hnos, jsBasename_id fn hnos]
  refine ⟨h1, h2, h3, h4, ?_, ?_, ?_⟩
  · exact (h4 ⟨joinDots [name.data, ext.data]⟩ (by simp [joinDots]) hsl1).trans h1
  · intro hprops
    refine (h4 ⟨joinDots (name.data :: props.map String.data ++ [ext.data])⟩ ?_ hslm).trans
      (h2 hprops)
    show joinDots ((name.data :: props.map String.data) ++ [ext.data]) ≠ []
    rw [List.cons_append, joinDots_cons _ _ (by simp)]
    simp
  · intro hne
    exact (h4 s hne (fun c hm => (hs c hm).2)).trans h3

/-- Witness for the amended claim C3 at concrete file names, with and without
a directory component. -/
theorem C3_parseResourcePath_witness :
    parseResourcePath ⟨joinDots ["bar".data, "txt".data]⟩
      = { resourceName := "bar", resourceType := "txt", properties := [""] }
  ∧ parseResourcePath ⟨joinDots ("bar".data :: ["ios"].map String.data ++ ["txt".data])⟩
      = { resourceName := "bar", resourceType := "txt", properties := ["ios"] }
  ∧ parseResourcePath "foo"
      = { resourceName := "", resourceType := "foo", properties := [""] }
  ∧ parseResourcePath ⟨"dir".data ++ '/' :: "foo".data⟩ = parseResourcePath "foo"
  ∧ parseResourcePath ⟨"dir".data ++ '/' :: joinDots ["bar".data, "txt".data]⟩
      = { resourceName := "bar", resourceType := "txt", properties := [""] }
  ∧ parseResourcePath
        ⟨"dir".data ++ '/' :: joinDots ("bar".data :: ["ios"].map String.data ++ ["txt".data])⟩
      = { resourceName := "bar", resourceType := "txt", properties := ["ios"] }
  ∧ parseResourcePath ⟨"dir".data ++ '/' :: "foo".data⟩
      = { resourceName := "", resourceType := "foo", properties := [""] } :=
  have h := C3_parseResourcePath "bar" "txt" "foo" "dir" ["ios"]
    (by decide) (by decide) (by decide) (by decide)
  ⟨h.1, h.2.1 (by decide), h.2.2.1,
   h.2.2.2.1 "foo" (by decide) (by decide),
   h.2.2.2.2.1, h.2.2.2.2.2.1 (by decide), h.2.2.2.2.2.2 (by decide)⟩

end ContentJS
